import Mathlib

/-
Verification of the Ev0 player-prop pricing core: odds normalization and
margin removal, edge computation, phase-aware bet selection, scenario
mixing, top-down lambda reallocation, exposure control, the Poisson event
probability, the leakage-safe walk-forward backtest protocol, and the
dashboard credential check.  Monetary and probability quantities are
modelled over ℚ (the source works with exact formulas on decimals);
the Poisson probability uses ℝ because of the exponential.
-/

namespace Ev0

/-! ## Odds normalization (docs/04-odds-normalization.md) -/

/-- Step 1 of the normalizer: convert each decimal odd to an implied
probability `p = 1 / odds`. -/
def impliedProbs (odds : List ℚ) : List ℚ :=
  odds.map (fun o => 1 / o)

/-- Step 2, proportional margin removal: `p_clean = p / sum(p_all_selections)`. -/
def cleanProbs (odds : List ℚ) : List ℚ :=
  (impliedProbs odds).map (fun p => p / (impliedProbs odds).sum)

/-- Step 3: convert cleaned probabilities back to fair odds `odds_clean = 1 / p_clean`. -/
def cleanOdds (odds : List ℚ) : List ℚ :=
  (cleanProbs odds).map (fun p => 1 / p)

/-! ## Edge computation (part_001 `edge_pct` and docs/04 edge definition) -/

/-- Embedded from the source: `edge_pct = (model_prob * bookmaker_odds) - 1`. -/
def edge_pct (model_prob bookmaker_odds : ℚ) : ℚ :=
  model_prob * bookmaker_odds - 1

/-- Fair odds for a model probability, `EV0 = 1 / model_probability`. -/
def fairOdds (model_prob : ℚ) : ℚ :=
  1 / model_prob

/-- Odds-ratio form of the edge: `edge = (odds_market_clean / EV0) - 1`. -/
def edgeOddsForm (model_prob market_odds : ℚ) : ℚ :=
  market_odds / fairOdds model_prob - 1

/-- C1: for every model probability `0 < p ≤ 1` and de-margined market odds
`o > 0`, the probability form `p * o - 1` and the odds-ratio form
`o / (1/p) - 1` of the edge agree within `1e-9` (in fact exactly). -/
theorem edge_forms_agree (p o : ℚ) (hp : 0 < p) (hp1 : p ≤ 1) (ho : 0 < o) :
    |edge_pct p o - edgeOddsForm p o| ≤ 1 / 1000000000 := by
  have hpne : p ≠ 0 := ne_of_gt hp
  have : edgeOddsForm p o = edge_pct p o := by
    unfold edgeOddsForm edge_pct fairOdds
    rw [div_div_eq_mul_div, div_one, mul_comm]
  rw [this, sub_self, abs_zero]
  norm_num

/-- Witness for C1 at `p = 1/2`, `o = 3`. -/
theorem edge_forms_agree_witness :
    |edge_pct (1/2) 3 - edgeOddsForm (1/2) 3| ≤ 1 / 1000000000 :=
  edge_forms_agree (1/2) 3 (by norm_num) (by norm_num) (by norm_num)

/-- Sum of the implied probabilities of a list of positive odds is positive. -/
theorem impliedProbs_sum_pos (odds : List ℚ) (hne : odds ≠ [])
    (hpos : ∀ o ∈ odds, 0 < o) : 0 < (impliedProbs odds).sum := by
  apply List.sum_pos
  · intro x hx
    rcases List.mem_map.mp hx with ⟨o, ho, rfl⟩
    exact div_pos one_pos (hpos o ho)
  · simp [impliedProbs, hne]

/-- C3: for every market of at least two positive decimal odds, proportional
margin removal produces cleaned probabilities summing exactly to 1 (hence
within `1e-6`), and the cleaned odds `1/p_clean` round-trip back to the
cleaned probabilities. -/
theorem cleanProbs_sum_one_and_roundtrip (odds : List ℚ)
    (hlen : 2 ≤ odds.length) (hpos : ∀ o ∈ odds, 0 < o) :
    (cleanProbs odds).sum = 1 ∧
    |(cleanProbs odds).sum - 1| ≤ 1 / 1000000 ∧
    ∀ p ∈ cleanProbs odds, 1 / (1 / p) = p := by
  have hne : odds ≠ [] := by
    intro h
    rw [h] at hlen
    simp at hlen
  have hS : 0 < (impliedProbs odds).sum := impliedProbs_sum_pos odds hne hpos
  have hsum : (cleanProbs odds).sum = 1 := by
    unfold cleanProbs
    rw [show ((impliedProbs odds).map
          (fun p => p / (impliedProbs odds).sum)).sum
        = ((impliedProbs odds).map id).sum / (impliedProbs odds).sum by
      simp only [div_eq_mul_inv]
      rw [List.sum_map_mul_right]
      simp]
    simp [div_self (ne_of_gt hS)]
  refine ⟨hsum, by rw [hsum]; norm_num, ?_⟩
  intro p _
  exact one_div_one_div p

/-- Witness for C3 at the odds set `{2.20, 3.50, 9.00}`. -/
theorem cleanProbs_sum_one_and_roundtrip_witness :
    (cleanProbs [11/5, 7/2, 9]).sum = 1 ∧
    |(cleanProbs [11/5, 7/2, 9]).sum - 1| ≤ 1 / 1000000 ∧
    ∀ p ∈ cleanProbs [11/5, 7/2, 9], 1 / (1 / p) = p :=
  cleanProbs_sum_one_and_roundtrip [11/5, 7/2, 9] (by norm_num)
    (by intro o ho; fin_cases ho <;> norm_num)

/-- C9 counterexample: running the documented normalizer on the odds set
`{2.20, 3.50, 9.00}` gives a raw implied sum of `590/693 ≈ 0.851`, not
`≈ 1.023`, a first cleaned probability of `63/118 ≈ 0.534`, not `≈ 0.445`,
and a first cleaned odd of `118/63 ≈ 1.873`, not `≈ 2.15`. -/
theorem normalizer_example_refuted :
    ¬ |(impliedProbs [11/5, 7/2, 9]).sum - 1023/1000| ≤ 1/10 ∧
    ¬ |(cleanProbs [11/5, 7/2, 9]).headI - 445/1000| ≤ 1/20 ∧
    ¬ |(cleanOdds [11/5, 7/2, 9]).headI - 215/100| ≤ 1/10 := by
  refine ⟨?_, ?_, ?_⟩ <;>
    simp only [impliedProbs, cleanProbs, cleanOdds, List.map_cons, List.map_nil,
      List.sum_cons, List.sum_nil, List.headI, not_le]
  · rw [lt_abs]; right; norm_num
  · rw [lt_abs]; left; norm_num
  · rw [lt_abs]; right; norm_num

/-- C9 amended: for the odds `{2.20, 3.50, 9.00}` under proportional margin
removal the raw implied sum is `590/693 ≈ 0.851`, the cleaned probabilities
are `{63/118, 99/295, 77/590} ≈ {0.534, 0.336, 0.131}` summing to 1, and the
cleaned (fair) odds for the first selection are `118/63 ≈ 1.873`. -/
theorem normalizer_example_actual :
    (impliedProbs [11/5, 7/2, 9]).sum = 590/693 ∧
    |(impliedProbs [11/5, 7/2, 9]).sum - 851/1000| ≤ 1/1000 ∧
    cleanProbs [11/5, 7/2, 9] = [63/118, 99/295, 77/590] ∧
    (cleanProbs [11/5, 7/2, 9]).sum = 1 ∧
    |(cleanOdds [11/5, 7/2, 9]).headI - 1873/1000| ≤ 1/1000 := by
  refine ⟨?_, ?_, ?_, ?_, ?_⟩ <;>
    simp only [impliedProbs, cleanProbs, cleanOdds, List.map_cons, List.map_nil,
      List.sum_cons, List.sum_nil, List.headI, List.cons.injEq]
  · norm_num
  · rw [abs_le]; constructor <;> norm_num
  · norm_num
  · norm_num
  · rw [abs_le]; constructor <;> norm_num

/-! ## Bet selection (part_001 `select_bets`) -/

/-- Market phase: EARLY (projected lineup) or LINEUP (confirmed lineup). -/
inductive Phase where
  | EARLY
  | LINEUP
deriving DecidableEq

/-- A prediction record as consumed by `select_bets`; `odds` is the bookmaker
odd attached to the candidate (present in the data model, unread by the
selection code). -/
structure PredRec where
  projected_mins : ℚ
  is_confirmed_starter : Bool
  edge : ℚ
  odds : ℚ
deriving DecidableEq

/-- A bet produced by `select_bets`: the prediction plus the sized stake. -/
structure Bet where
  pred : PredRec
  stake : ℚ
deriving DecidableEq

/-- Standard flat unit (1 unit = 1% bankroll). -/
def FLAT_UNIT : ℚ := 1

/-- Phase stake multiplier: `0.75` in EARLY, `1.0` in LINEUP. -/
def stakeFactor (phase : Phase) : ℚ :=
  if phase = Phase.EARLY then 3/4 else 1

/-- The filter cascade inside the `select_bets` loop, embedded clause by
clause: the minutes filter (`projected_mins < 70` in EARLY), the confirmed
starter filter (LINEUP), then the edge filter (`edge < 0.05` EARLY /
`< 0.03` LINEUP).  The loop contains no odds-range check. -/
def passesFilters (phase : Phase) (pred : PredRec) : Bool :=
  let min_mins : ℚ := if phase = Phase.EARLY then 70 else 0
  let min_edge : ℚ := if phase = Phase.EARLY then 5/100 else 3/100
  if phase = Phase.EARLY ∧ pred.projected_mins < min_mins then false
  else if phase = Phase.LINEUP ∧ pred.is_confirmed_starter = false then false
  else if pred.edge < min_edge then false
  else true

/-- Embedded `select_bets` loop: keep the predictions passing the filters and
size each kept bet at `FLAT_UNIT * stake_factor`. -/
def selectBets (phase : Phase) (preds : List PredRec) : List Bet :=
  (preds.filter (passesFilters phase)).map
    (fun p => { pred := p, stake := FLAT_UNIT * stakeFactor phase })

/-- C4 failing input: in EARLY phase a prediction with projected minutes 90,
edge 10% and bookmaker odds 20.0 (far above the documented 15.0 cap) is
selected by `select_bets` with a full `0.75` stake — the code applies no
max-odds filter, contradicting the filter table in the same document. -/
theorem selectBets_ignores_odds_cap :
    selectBets Phase.EARLY [⟨90, false, 1/10, 20⟩]
      = [⟨⟨90, false, 1/10, 20⟩, 3/4⟩] ∧
    selectBets Phase.LINEUP [⟨0, true, 1/10, 20⟩]
      = [⟨⟨0, true, 1/10, 20⟩, 1⟩] := by
  have h1 : Phase.EARLY ≠ Phase.LINEUP := by decide
  have h2 : Phase.LINEUP ≠ Phase.EARLY := by decide
  constructor <;>
    norm_num [selectBets, passesFilters, stakeFactor, FLAT_UNIT,
      List.filter_cons, List.filter_nil, h1, h2]

/-! ## Override allocator (top-down team-xG mode) -/

/-- Modelled from the spec: the override allocator itself is not in the
repository sources (part_003 only describes the top-down mode); the spec
gives the rescaling rule `λ_i' = λ_i × (override_total / Σλ_bottom_up)`. -/
def rescale (override_total : ℚ) (lambdas : List ℚ) : List ℚ :=
  lambdas.map (fun l => l * (override_total / lambdas.sum))

/-- Helper: summing a list scaled on the right by a constant. -/
theorem sum_map_mul_const (l : List ℚ) (c : ℚ) :
    (l.map (fun x => x * c)).sum = l.sum * c := by
  induction l with
  | nil => simp
  | cons a t ih => simp [ih, add_mul]

/-- C6: for any override total `T > 0` and any list of player lambdas with
positive sum, the rescaled lambdas sum exactly to `T` and every pairwise
ratio of rescaled lambdas equals the corresponding original ratio. -/
theorem rescale_sum_and_shares (T : ℚ) (lambdas : List ℚ)
    (hsum : 0 < lambdas.sum) (hT : 0 < T) :
    (rescale T lambdas).sum = T ∧
    ∀ i j : ℕ, i < lambdas.length → j < lambdas.length →
      (rescale T lambdas).getD i 0 / (rescale T lambdas).getD j 0
        = lambdas.getD i 0 / lambdas.getD j 0 := by
  have hSne : lambdas.sum ≠ 0 := ne_of_gt hsum
  have hcne : T / lambdas.sum ≠ 0 := div_ne_zero (ne_of_gt hT) hSne
  constructor
  · unfold rescale
    rw [sum_map_mul_const, mul_comm, div_mul_cancel₀ T hSne]
  · intro i j hi hj
    have hi' : i < (rescale T lambdas).length := by
      simpa [rescale] using hi
    have hj' : j < (rescale T lambdas).length := by
      simpa [rescale] using hj
    rw [List.getD_eq_getElem _ _ hi', List.getD_eq_getElem _ _ hj',
        List.getD_eq_getElem _ _ hi, List.getD_eq_getElem _ _ hj]
    unfold rescale
    simp only [List.getElem_map]
    exact mul_div_mul_right _ _ hcne

/-- Witness for C6 at the documented example: override total `2.5` over
bottom-up lambdas `{0.40, 0.30, 0.20}` rescales to `{10/9, 5/6, 5/9}`
(≈ `{1.111, 0.833, 0.556}`) summing exactly to `2.5`, with the first two
players' ratio preserved. -/
theorem rescale_witness :
    (rescale (5/2) [2/5, 3/10, 1/5]).sum = 5/2 ∧
    rescale (5/2) [2/5, 3/10, 1/5] = [10/9, 5/6, 5/9] ∧
    (rescale (5/2) [2/5, 3/10, 1/5]).getD 0 0 / (rescale (5/2) [2/5, 3/10, 1/5]).getD 1 0
      = ([2/5, 3/10, 1/5] : List ℚ).getD 0 0 / ([2/5, 3/10, 1/5] : List ℚ).getD 1 0 := by
  have h := rescale_sum_and_shares (5/2) [2/5, 3/10, 1/5]
    (by norm_num [List.sum_cons, List.sum_nil]) (by norm_num)
  refine ⟨h.1, ?_, h.2 0 1 (by norm_num) (by norm_num)⟩
  norm_num [rescale, List.sum_cons, List.sum_nil, List.map_cons, List.map_nil,
    List.cons.injEq]

/-! ## Scenario mixer -/

/-- Modelled from the spec: the scenario mixer is not in the repository
sources; a scenario is a weight together with the conditional event
probability `P(event | scenario)`. -/
structure Scenario where
  weight : ℚ
  condProb : ℚ

/-- Sum of the scenario weights of a mixture. -/
def weightSum (ss : List Scenario) : ℚ :=
  (ss.map (fun s => s.weight)).sum

/-- Mixed probability `P = Σ_scenario weight(scenario) × P(event | scenario)`. -/
def mixedProb (ss : List Scenario) : ℚ :=
  (ss.map (fun s => s.weight * s.condProb)).sum

/-- Weighted variance of the conditional probabilities around the mixture. -/
def mixtureVariance (ss : List Scenario) : ℚ :=
  (ss.map (fun s => s.weight * (s.condProb - mixedProb ss) ^ 2)).sum

/-- Modelled from the spec: in LINEUP phase minutes uncertainty collapses to
the single confirmed scenario, carrying the whole weight. -/
def lineupMixture (p : ℚ) : List Scenario :=
  [⟨1, p⟩]

/-- C5: in any scenario mixture whose weights sum to 1 the mixed probability
is the weight-weighted sum of conditional probabilities, and the LINEUP-phase
mixture is a single confirmed scenario of weight 1 whose mixed probability
equals that scenario's conditional probability exactly, with zero mixture
variance. -/
theorem scenario_mixture_props (ss : List Scenario) (p : ℚ)
    (hw : weightSum ss = 1) :
    mixedProb ss = (ss.map (fun s => s.weight * s.condProb)).sum ∧
    weightSum (lineupMixture p) = 1 ∧
    mixedProb (lineupMixture p) = p ∧
    mixtureVariance (lineupMixture p) = 0 := by
  refine ⟨rfl, ?_, ?_, ?_⟩ <;>
    simp [weightSum, lineupMixture, mixedProb, mixtureVariance]

/-- Witness for C5 at a two-scenario EARLY mixture and `p = 2/5`. -/
theorem scenario_mixture_props_witness :
    mixedProb [⟨1/2, 1/4⟩, ⟨1/2, 3/4⟩]
      = (([⟨1/2, 1/4⟩, ⟨1/2, 3/4⟩] : List Scenario).map
          (fun s => s.weight * s.condProb)).sum ∧
    weightSum (lineupMixture (2/5)) = 1 ∧
    mixedProb (lineupMixture (2/5)) = 2/5 ∧
    mixtureVariance (lineupMixture (2/5)) = 0 :=
  scenario_mixture_props [⟨1/2, 1/4⟩, ⟨1/2, 3/4⟩] (2/5)
    (by norm_num [weightSum, List.map_cons, List.map_nil, List.sum_cons,
      List.sum_nil])

/-! ## Exposure control -/

/-- A candidate bet as seen by the exposure-control step. -/
structure Candidate where
  matchKey : ℕ
  playerKey : ℕ
  dayKey : ℕ
  stake : ℚ
deriving DecidableEq

/-- Exposure cap configuration: per match, per player (summed across both
phases), and per day; documented limits 4, 1.5 and 15 units. -/
structure CapsConfig where
  perMatch : ℚ
  perPlayer : ℚ
  perDay : ℚ

/-- The documented cap limits: max 4 units per match, 1.5 per player,
15 per day. -/
def defaultCaps : CapsConfig :=
  ⟨4, 3/2, 15⟩

/-- Total stake already accepted against a given key. -/
def exposure (key : Candidate → ℕ) (k : ℕ) (acc : List Candidate) : ℚ :=
  ((acc.filter (fun c => key c = k)).map (fun c => c.stake)).sum

/-- Modelled from the spec: `apply_exposure_caps` is called by `select_bets`
but not present in the sources; a candidate fits when adding its stake keeps
every one of the three exposures within its cap. -/
def fitsCaps (caps : CapsConfig) (acc : List Candidate) (c : Candidate) : Prop :=
  exposure Candidate.matchKey c.matchKey acc + c.stake ≤ caps.perMatch ∧
  exposure Candidate.playerKey c.playerKey acc + c.stake ≤ caps.perPlayer ∧
  exposure Candidate.dayKey c.dayKey acc + c.stake ≤ caps.perDay

instance (caps : CapsConfig) (acc : List Candidate) (c : Candidate) :
    Decidable (fitsCaps caps acc c) := by
  unfold fitsCaps
  infer_instance

/-- Outcome of exposure control for one candidate: either accepted with the
stake untouched, or rejected with an explicit reason. -/
structure ExpDecision where
  cand : Candidate
  stake : ℚ
  accepted : Bool
  reason : Option String
deriving DecidableEq

/-- Modelled from the spec: process candidates in order, tracking accepted
exposure; a candidate whose addition would exceed any cap is rejected with
reason `EXPOSURE_CAP`, never resized; one fitting all caps is accepted with
its stake unchanged. -/
def capsGo (caps : CapsConfig) (acc : List Candidate) :
    List Candidate → List ExpDecision
  | [] => []
  | c :: cs =>
    if fitsCaps caps acc c then
      ⟨c, c.stake, true, none⟩ :: capsGo caps (acc ++ [c]) cs
    else
      ⟨c, c.stake, false, some "EXPOSURE_CAP"⟩ :: capsGo caps acc cs

/-- Exposure control over a full candidate list, starting from no exposure. -/
def applyExposureCaps (caps : CapsConfig) (cands : List Candidate) :
    List ExpDecision :=
  capsGo caps [] cands

/-- Helper: every decision emitted by `capsGo` keeps the candidate's stake
and carries `EXPOSURE_CAP` exactly when rejected. -/
theorem capsGo_props (caps : CapsConfig) :
    ∀ (cands acc : List Candidate), ∀ d ∈ capsGo caps acc cands,
      d.stake = d.cand.stake ∧
      (d.accepted = false ↔ d.reason = some "EXPOSURE_CAP") ∧
      (d.accepted = true ↔ d.reason = none) := by
  intro cands
  induction cands with
  | nil =>
    intro acc d hd
    simp [capsGo] at hd
  | cons c cs ih =>
    intro acc d hd
    by_cases h : fitsCaps caps acc c
    · rw [capsGo, if_pos h] at hd
      rcases List.mem_cons.mp hd with rfl | hmem
      · simp
      · exact ih _ d hmem
    · rw [capsGo, if_neg h] at hd
      rcases List.mem_cons.mp hd with rfl | hmem
      · simp
      · exact ih _ d hmem

/-- C7: every decision of the exposure-control step either accepts the
candidate with its stake unchanged and no rejection reason, or rejects it
with the explicit non-null reason `EXPOSURE_CAP`; a stake is never silently
resized. -/
theorem applyExposureCaps_props (caps : CapsConfig) (cands : List Candidate) :
    ∀ d ∈ applyExposureCaps caps cands,
      d.stake = d.cand.stake ∧
      (d.accepted = false ↔ d.reason = some "EXPOSURE_CAP") ∧
      (d.accepted = true ↔ d.reason = none) :=
  capsGo_props caps cands []

/-- Witness for C7: a single candidate of stake `0.75` is within all default
caps and passes through accepted, stake unchanged; a candidate of stake `5`
exceeds the 4-unit match cap and is rejected with reason `EXPOSURE_CAP`. -/
theorem applyExposureCaps_props_witness :
    ((⟨⟨1, 1, 1, 3/4⟩, 3/4, true, none⟩ : ExpDecision).stake
        = (⟨⟨1, 1, 1, 3/4⟩, 3/4, true, none⟩ : ExpDecision).cand.stake ∧
      ((⟨⟨1, 1, 1, 3/4⟩, 3/4, true, none⟩ : ExpDecision).accepted = false ↔
        (⟨⟨1, 1, 1, 3/4⟩, 3/4, true, none⟩ : ExpDecision).reason
          = some "EXPOSURE_CAP") ∧
      ((⟨⟨1, 1, 1, 3/4⟩, 3/4, true, none⟩ : ExpDecision).accepted = true ↔
        (⟨⟨1, 1, 1, 3/4⟩, 3/4, true, none⟩ : ExpDecision).reason = none)) ∧
    applyExposureCaps defaultCaps [⟨2, 2, 2, 5⟩]
      = [⟨⟨2, 2, 2, 5⟩, 5, false, some "EXPOSURE_CAP"⟩] := by
  constructor
  · apply applyExposureCaps_props defaultCaps [⟨1, 1, 1, 3/4⟩]
    have hfit : fitsCaps defaultCaps [] ⟨1, 1, 1, 3/4⟩ := by
      refine ⟨?_, ?_, ?_⟩ <;> norm_num [exposure, defaultCaps, List.filter]
    rw [applyExposureCaps, capsGo, if_pos hfit]
    exact List.mem_cons_self _ _
  · have hnofit : ¬ fitsCaps defaultCaps [] ⟨2, 2, 2, 5⟩ := by
      intro h
      have := h.1
      norm_num [exposure, defaultCaps, List.filter] at this
    rw [applyExposureCaps, capsGo, if_neg hnofit, capsGo]

/-! ## Backtest: no look-ahead and walk-forward splitting -/

/-- Modelled from the spec: the backtest engine is not in the repository
sources (docs/05-backtesting.md states its rules); a backtest decision point
carries its decision timestamp `t` and the `as_of`/`ingested_at` timestamps
of every FeatureSnapshot/OddsSnapshot used to produce it. -/
structure BtDecision where
  t : ℕ
  used : List ℕ
deriving DecidableEq

/-- The no-look-ahead check for one decision: every snapshot used has a
timestamp no later than the decision timestamp. -/
def noLookahead (d : BtDecision) : Bool :=
  d.used.all (fun s => s ≤ d.t)

/-- Error raised when a backtest run uses future data. -/
inductive BtError where
  | leakageViolation
deriving DecidableEq

/-- Aggregate report of a completed backtest run. -/
structure BtReport where
  totalBets : ℕ
deriving DecidableEq

/-- Modelled from the spec: a run either passes the no-look-ahead check on
every decision and yields one whole report, or fails with
`LeakageViolation` and yields nothing — never a partial report. -/
def runBacktest (ds : List BtDecision) : Except BtError BtReport :=
  if ds.all noLookahead then
    Except.ok ⟨ds.length⟩
  else
    Except.error BtError.leakageViolation

/-- Modelled from the spec: expanding walk-forward protocol — for each
cut-off `k ≥ 1` the train window is the first `k` periods and the test
window the next period. -/
def walkForwardSplits (periods : List ℕ) : List (List ℕ × List ℕ) :=
  (List.range periods.length).filterMap
    (fun k =>
      if k = 0 then none
      else some (periods.take k, (periods.drop k).take 1))

/-- C2: a backtest run produces a report exactly when every snapshot used by
every decision has a timestamp no later than that decision's timestamp;
otherwise it is the `LeakageViolation` error and nothing is reported; and in
every walk-forward split over strictly increasing period timestamps, every
training timestamp is strictly less than every test-window timestamp. -/
theorem backtest_no_lookahead (ds : List BtDecision) (periods : List ℕ) :
    ((∃ r, runBacktest ds = Except.ok r) ↔
      ∀ d ∈ ds, ∀ s ∈ d.used, s ≤ d.t) ∧
    ((¬ ∀ d ∈ ds, ∀ s ∈ d.used, s ≤ d.t) →
      runBacktest ds = Except.error BtError.leakageViolation) ∧
    (List.Sorted (· < ·) periods →
      ∀ sp ∈ walkForwardSplits periods, ∀ x ∈ sp.1, ∀ y ∈ sp.2, x < y) := by
  have hall : ds.all noLookahead = true ↔ ∀ d ∈ ds, ∀ s ∈ d.used, s ≤ d.t := by
    simp [List.all_eq_true, noLookahead]
  refine ⟨?_, ?_, ?_⟩
  · constructor
    · rintro ⟨r, hr⟩
      by_cases h : ds.all noLookahead
      · exact hall.mp h
      · rw [runBacktest, if_neg h] at hr
        exact absurd hr (by simp)
    · intro h
      rw [runBacktest, if_pos (hall.mpr h)]
      exact ⟨⟨ds.length⟩, rfl⟩
  · intro h
    have : ds.all noLookahead = false := by
      rcases Bool.eq_false_or_eq_true (ds.all noLookahead) with ht | hf
      · exact absurd (hall.mp ht) h
      · exact hf
    rw [runBacktest, if_neg (by simp [this])]
  · intro hsort sp hsp x hx y hy
    rcases List.mem_filterMap.mp hsp with ⟨k, _, hif⟩
    by_cases hk : k = 0
    · rw [if_pos hk] at hif
      exact absurd hif (by simp)
    · rw [if_neg hk] at hif
      have hsp' : sp = (periods.take k, (periods.drop k).take 1) :=
        (Option.some.injEq _ _ ▸ hif).symm
      rw [hsp'] at hx hy
      exact hsort.rel_of_mem_take_of_mem_drop hx
        (List.take_subset 1 (periods.drop k) hy)

/-- Witness for C2: a run whose only decision at `t = 5` used snapshots at
`3` and `5` produces a report, and in the first walk-forward split over
periods `[1, 2, 3]` the train timestamp `1` precedes the test timestamp `2`. -/
theorem backtest_no_lookahead_witness :
    (∃ r, runBacktest [⟨5, [3, 5]⟩] = Except.ok r) ∧ 1 < 2 := by
  have h := backtest_no_lookahead [⟨5, [3, 5]⟩] [1, 2, 3]
  refine ⟨h.1.mpr (by decide), ?_⟩
  refine h.2.2 (by decide) ([1], [2]) (by decide) 1 (by decide) 2 (by decide)

/-! ## Dashboard credential check (part_005 `authorize`) -/

/-- The credentials record supplied to the NextAuth credentials provider. -/
structure Credentials where
  username : String
  password : String
deriving DecidableEq

/-- The user object returned on successful login. -/
structure AuthUser where
  id : String
  name : String
  email : String
  role : String
deriving DecidableEq

/-- The constant admin user object of the source. -/
def adminUser : AuthUser :=
  ⟨"1", "Admin", "admin@ev0.local", "admin"⟩

/-- JavaScript `env.X || d`: the default is taken when the variable is unset
or set to the empty string (both falsy). -/
def jsOrDefault (env : Option String) (d : String) : String :=
  match env with
  | none => d
  | some s => if s = "" then d else s

/-- Embedded `authorize`: compare the supplied credentials with
`ADMIN_USERNAME || admin` and `ADMIN_PASSWORD || admin`, returning the admin
user object on a match and null otherwise (missing credentials never match). -/
def authorize (envUser envPass : Option String) (creds : Option Credentials) :
    Option AuthUser :=
  let validUsername := jsOrDefault envUser "admin"
  let validPassword := jsOrDefault envPass "admin"
  match creds with
  | some c =>
    if c.username = validUsername ∧ c.password = validPassword then
      some adminUser
    else
      none
  | none => none

/-- C10 counterexample: with `ADMIN_USERNAME` set to the empty string, the
supplied username `""` equals the environment value and the password equals
the default, yet `authorize` returns null — and the pair `admin`/`admin` is
still accepted — because `||` also replaces an empty-string value by
`admin`, not only an unset one. -/
theorem authorize_empty_env_refutes :
    authorize (some "") none (some ⟨"", "admin"⟩) = none ∧
    ((some "").getD "admin") = "" ∧
    ((none : Option String).getD "admin") = "admin" ∧
    authorize (some "") none (some ⟨"admin", "admin"⟩) = some adminUser := by
  refine ⟨?_, rfl, rfl, ?_⟩ <;> simp [authorize, jsOrDefault, adminUser]

/-- C10 amended: `authorize` returns a user object exactly when credentials
are present and the username and password equal `ADMIN_USERNAME` and
`ADMIN_PASSWORD` respectively, each falling back to `admin` when the
variable is unset or empty; with no environment configuration exactly the
pair `admin`/`admin` is accepted, and missing credentials always yield null. -/
theorem authorize_iff (envUser envPass : Option String)
    (creds : Option Credentials) (c : Credentials) :
    ((authorize envUser envPass creds).isSome = true ↔
      ∃ c', creds = some c' ∧ c'.username = jsOrDefault envUser "admin" ∧
        c'.password = jsOrDefault envPass "admin") ∧
    (authorize none none (some c) = some adminUser ↔ c = ⟨"admin", "admin"⟩) ∧
    authorize envUser envPass none = none := by
  refine ⟨?_, ?_, rfl⟩
  · cases creds with
    | none => simp [authorize]
    | some c' =>
      by_cases h : c'.username = jsOrDefault envUser "admin" ∧
          c'.password = jsOrDefault envPass "admin"
      · simp [authorize, h]
      · simp only [authorize, if_neg h]
        simp only [Option.isSome_none, Bool.false_eq_true, false_iff]
        rintro ⟨c'', hc'', h1, h2⟩
        rw [Option.some.injEq] at hc''
        exact h (hc'' ▸ ⟨h1, h2⟩)
  · cases c with
    | mk u p =>
      by_cases hu : u = "admin" <;> by_cases hp : p = "admin" <;>
        simp [authorize, jsOrDefault, adminUser, hu, hp, AuthUser.mk.injEq,
          Credentials.mk.injEq]

/-! ## Poisson event probability -/

/-- Modelled from the spec: both intensity-model variants turn the Poisson
rate lambda into the event probability `P(event ≥ 1) = 1 - e^(-λ)` (the
pricing modules themselves are not in the repository sources; the dashboard
displays `λ = 0.47 → P = 37.5%`, consistent with this formula). -/
noncomputable def poissonProb (lam : ℝ) : ℝ :=
  1 - Real.exp (-lam)

/-- C8: the Poisson event probability is strictly increasing in lambda, and
at `λ = 0.61 + 0.12 = 0.73` it is within `0.001` of `0.518`. -/
theorem poissonProb_mono_and_example :
    (∀ l1 l2 : ℝ, l1 < l2 → poissonProb l1 < poissonProb l2) ∧
    |poissonProb (0.61 + 0.12) - 0.518| < 1 / 1000 := by
  constructor
  · intro l1 l2 h
    have hexp : Real.exp (-l2) < Real.exp (-l1) :=
      Real.exp_lt_exp.mpr (by linarith)
    unfold poissonProb
    linarith
  · have h073 : (0.61 : ℝ) + 0.12 = 0.73 := by norm_num
    rw [h073]
    have habs : |(-0.73 : ℝ)| = 0.73 := by
      rw [abs_of_nonpos] <;> norm_num
    have hx : |(-0.73 : ℝ)| ≤ 1 := by
      rw [habs]; norm_num
    have hb := @Real.exp_bound (-0.73 : ℝ) hx 8 (by norm_num)
    rw [habs] at hb
    have hSval : (∑ m ∈ Finset.range 8, (-0.73 : ℝ) ^ m / m.factorial)
        = 26986799900091467 / 56000000000000000 := by
      simp only [Finset.sum_range_succ, Finset.sum_range_zero,
        show Nat.factorial 0 = 1 from rfl, show Nat.factorial 1 = 1 from rfl,
        show Nat.factorial 2 = 2 from rfl, show Nat.factorial 3 = 6 from rfl,
        show Nat.factorial 4 = 24 from rfl, show Nat.factorial 5 = 120 from rfl,
        show Nat.factorial 6 = 720 from rfl,
        show Nat.factorial 7 = 5040 from rfl]
      norm_num
    rw [hSval] at hb
    have hb2 : |Real.exp (-0.73) - 26986799900091467 / 56000000000000000|
        ≤ 3 / 1000000 := by
      refine le_trans hb ?_
      simp only [show Nat.factorial 8 = 40320 from rfl,
        show Nat.succ 8 = 9 from rfl]
      norm_num
    obtain ⟨hlo, hhi⟩ := abs_le.mp hb2
    unfold poissonProb
    rw [abs_lt]
    constructor <;> linarith

/-- Witness for C8: strict growth from `λ = 0` to `λ = 1`, and the numeric
example at `λ = 0.73`. -/
theorem poissonProb_mono_and_example_witness :
    poissonProb 0 < poissonProb 1 ∧
    |poissonProb (0.61 + 0.12) - 0.518| < 1 / 1000 :=
  ⟨poissonProb_mono_and_example.1 0 1 zero_lt_one,
   poissonProb_mono_and_example.2⟩

end Ev0
